import Mathlib

/-!
Verification of the gzip-hpp wrapper (`include/gzip/compress.hpp`,
`include/gzip/decompress.hpp`, `include/gzip/utils.hpp`).

The repository is a thin driver around an external streaming DEFLATE codec.
We embed the wrapper's own logic faithfully: buffers are lists of byte
values, `std::size_t` arithmetic is `Nat` with an explicit `% 2 ^ 64`
where the source can overflow, and the two `static_cast<unsigned int>`
truncations in the drivers are `% 2 ^ 32`.  The external codec itself is
out of scope of the repository (the spec treats it as an opaque
collaborator), so it enters as an abstract parameter: a deterministic
function giving the full compressed stream, and a behaviour record giving
the decompressed stream or an error status with a message.
-/

namespace GzipHpp

/-- Byte values (the `char` entries of the C++ buffers, read through
`static_cast<uint8_t>`); a buffer is a `List Byte`. -/
abbrev Byte := Nat

/-- Modulus of `unsigned int` (32-bit), the type of zlib's
`avail_in` and `avail_out` fields. -/
def U32 : Nat := 2 ^ 32

/-- Modulus of `std::size_t` (64-bit). -/
def U64 : Nat := 2 ^ 64

/-! ## utils.hpp: the signature sniffer -/

/-- Embedding of `gzip::is_compressed(const char* data, std::size_t size)`
from `include/gzip/utils.hpp`.  The buffer is `data` and `size` is its
length.  The guarded accesses `data[0]`, `data[1]` (only evaluated under
`size > 2` by short-circuit) become `getD` with a default that is never
reached when the guard holds. -/
def is_compressed (data : List Byte) : Bool :=
  decide (data.length > 2) &&
    (((data.getD 0 0 == 0x78) &&
        ((data.getD 1 0 == 0x9C) || (data.getD 1 0 == 0x01) ||
         (data.getD 1 0 == 0xDA) || (data.getD 1 0 == 0x5E))) ||
     ((data.getD 0 0 == 0x1F) && (data.getD 1 0 == 0x8B)))

/-- First two bytes match one of the zlib magic patterns
(`0x78` followed by `0x9C`, `0x01`, `0xDA` or `0x5E`). -/
def zlibMagic (b0 b1 : Byte) : Prop :=
  b0 = 0x78 ∧ (b1 = 0x9C ∨ b1 = 0x01 ∨ b1 = 0xDA ∨ b1 = 0x5E)

/-- First two bytes match the gzip magic pattern (`0x1F 0x8B`). -/
def gzipMagic (b0 b1 : Byte) : Prop :=
  b0 = 0x1F ∧ b1 = 0x8B

/-- C2 (counterexample): a buffer of exactly the two gzip magic bytes
`0x1F 0x8B` has first two bytes matching the gzip pattern, yet
`is_compressed` returns `false`, because the check requires
`size > 2`.  This refutes the claim that every buffer whose first two
bytes match a known pattern is classified as compressed. -/
theorem is_compressed_magic_pair_counterexample :
    gzipMagic 0x1F 0x8B ∧ is_compressed [0x1F, 0x8B] = false := by
  constructor
  · exact ⟨rfl, rfl⟩
  · rfl

/-- C2 (amended): `is_compressed` returns `true` exactly on buffers of
size strictly greater than 2 whose first two bytes match a known zlib
or gzip magic pattern; on every other buffer (no match, or size at
most 2) it returns `false`. -/
theorem is_compressed_iff_magic (data : List Byte) :
    is_compressed data = true ↔
      2 < data.length ∧
        (zlibMagic (data.getD 0 0) (data.getD 1 0) ∨
         gzipMagic (data.getD 0 0) (data.getD 1 0)) := by
  simp only [is_compressed, zlibMagic, gzipMagic, Bool.and_eq_true,
    Bool.or_eq_true, beq_iff_eq, decide_eq_true_eq]
  tauto

/-- C8: `is_compressed` returns `false` on every buffer of size at most
2, regardless of contents, because the check requires `size > 2`. -/
theorem is_compressed_short_false (data : List Byte) (h : data.length ≤ 2) :
    is_compressed data = false := by
  have h2 : ¬ (2 < data.length) := by omega
  simp [is_compressed, h2]

/-- C8 (witness): the complete two-byte gzip magic buffer is classified
as not compressed. -/
theorem is_compressed_short_false_witness :
    ([0x1F, 0x8B] : List Byte).length ≤ 2 ∧
      is_compressed [0x1F, 0x8B] = false :=
  ⟨by decide, is_compressed_short_false [0x1F, 0x8B] (by decide)⟩

/-! ## Errors

Every throw in the wrapper is a `std::runtime_error`; the constructors
record which throw site fired, and `GzipError.message` records the
literal message string of that site (`codec` carries the string copied
from `inflate_s.msg`). -/

/-- The `std::runtime_error` throws of the wrapper, tagged by throw site. -/
inductive GzipError where
  | sizeGuard : GzipError
  | resizeGuard : GzipError
  | codec : String → GzipError
  deriving DecidableEq

deriving instance DecidableEq for Except

/-- The message string each throw site passes to `std::runtime_error`. -/
def GzipError.message : GzipError → String
  | .sizeGuard => "size may use more memory than intended when decompressing"
  | .resizeGuard => "size of output string will use more memory then intended when decompressing"
  | .codec m => m

/-! ## Buffer primitives

`resizeTo` is `container.resize(n)` for `std::string` and
`std::vector<uint8_t>`: the first `n` old bytes are kept, growth is
value-initialised to zero.  `writeAt` is the effect of the codec writing
`chunk` through `next_out = &output[0] + pos`. -/

/-- `container.resize n`: keep the first `n` bytes, pad growth with zeros. -/
def resizeTo (l : List Byte) (n : Nat) : List Byte :=
  l.take n ++ List.replicate (n - l.length) 0

/-- Overwrite `chunk.length` bytes of `l` starting at position `pos`. -/
def writeAt (l : List Byte) (pos : Nat) (chunk : List Byte) : List Byte :=
  l.take pos ++ chunk ++ l.drop (pos + chunk.length)

theorem resizeTo_length (l : List Byte) (n : Nat) : (resizeTo l n).length = n := by
  simp [resizeTo]
  omega

theorem resizeTo_of_le (l : List Byte) (n : Nat) (h : n ≤ l.length) :
    resizeTo l n = l.take n := by
  have : n - l.length = 0 := by omega
  simp [resizeTo, this]

theorem resizeTo_take (l : List Byte) (n k : Nat) (hk : k ≤ l.length) (hn : k ≤ n) :
    (resizeTo l n).take k = l.take k := by
  have h1 : (l.take n).length = min n l.length := List.length_take n l
  have h3 : k - (l.take n).length = 0 := by omega
  rw [resizeTo, List.take_append_eq_append_take, h3, List.take_take]
  have h2 : min k n = k := by omega
  rw [h2]
  simp

theorem writeAt_length (l : List Byte) (pos : Nat) (chunk : List Byte)
    (h : pos + chunk.length ≤ l.length) : (writeAt l pos chunk).length = l.length := by
  simp [writeAt]
  omega

theorem writeAt_take (l : List Byte) (pos : Nat) (chunk : List Byte)
    (h : pos ≤ l.length) :
    (writeAt l pos chunk).take (pos + chunk.length) = l.take pos ++ chunk := by
  have h1 : (l.take pos).length = pos := by simp; omega
  rw [writeAt, List.append_assoc, List.take_append_eq_append_take, h1]
  have h2 : pos + chunk.length - pos = chunk.length := by omega
  rw [h2, List.take_append_eq_append_take]
  have h3 : chunk.length - chunk.length = 0 := by omega
  simp [h3, List.take_of_length_le (le_refl chunk.length)]

/-! ## The abstract codec

The external compression engine is out of the repository's scope; the
spec treats it as an opaque collaborator behind a streaming
"feed input, produce output until exhausted" protocol with standard
return codes and an internal error message string.  We model exactly
that interface: `deflateRun level data` is the complete compressed
stream the codec emits for `data` at compression level `level` (fed to
the driver window by window), and `inflateRun data` describes what
inflating `data` yields: the decompressed stream `out`, and optionally
a terminal error status with its message. -/

/-- zlib status codes used by the wrapper. -/
def Z_OK : Int := 0

/-- zlib status: the end of the stream was reached. -/
def Z_STREAM_END : Int := 1

/-- zlib status: no progress was possible (not fatal here). -/
def Z_BUF_ERROR : Int := -5

/-- zlib status: corrupt input (an example of a fatal status). -/
def Z_DATA_ERROR : Int := -3

/-- zlib's default compression level. -/
def Z_DEFAULT_COMPRESSION : Int := -1

/-- Behaviour of the codec's inflate side on one compressed buffer:
the bytes produced, and optionally a terminal status/message pair the
codec reports after producing them (`none` for a well-formed stream). -/
structure InflateSpec where
  out : List Byte
  err : Option (Int × String)
  deriving DecidableEq

/-- The opaque external codec. -/
structure Codec where
  deflateRun : Int → List Byte → List Byte
  inflateRun : List Byte → InflateSpec

/-- A codec whose inflate side inverts its deflate side, the contract the
external library provides. -/
def Codec.RoundTrip (cd : Codec) : Prop :=
  ∀ level data, cd.inflateRun (cd.deflateRun level data) = ⟨data, none⟩

/-- A concrete codec: DEFLATE "stored" framing, a fixed 10-byte gzip
header followed by the raw bytes (what zlib emits at level 0, minus the
trailer).  It satisfies the round-trip contract and drives the loops on
concrete inputs. -/
def storeHeader : List Byte := [0x1F, 0x8B, 8, 0, 0, 0, 0, 0, 0, 255]

/-- The stored-framing codec instance. -/
def storeCodec : Codec :=
  ⟨fun _ data => storeHeader ++ data, fun s => ⟨s.drop 10, none⟩⟩

theorem storeCodec_roundTrip : storeCodec.RoundTrip := fun _ _ => rfl

/-! ## compress.hpp: the compress driver -/

/-- The growth increment `size / 2 + 1024` of the compress loop. -/
def increaseOf (size : Nat) : Nat := size / 2 + 1024

/-- One iteration of the compress do/while loop, as recorded in the run
trace: `size_compressed` before and after, `output.size()` after the
conditional resize, the `avail_out` window handed to `deflate`, the
bytes the codec wrote, and whether the loop repeated. -/
structure CIter where
  scBefore : Nat
  scAfter : Nat
  bufLen : Nat
  window : Nat
  written : Nat
  cont : Bool
  deriving DecidableEq

/-- The do/while loop of `Compressor::compress` (lines 100-115 of
`compress.hpp`).  State: the output container, `size_compressed`, and
the codec's not-yet-emitted compressed bytes.  Each pass conditionally
resizes to `size_compressed + increase`, hands the codec the window
`avail_out = static_cast<unsigned int>(increase)` (hence `% 2 ^ 32`),
lets it write, adds `increase - avail_out` to the running total and
repeats while `avail_out == 0`.  `none` means the fuel ran out (the
loop did not exit within `fuel` passes). -/
def compressLoop (size : Nat) :
    Nat → List Byte → Nat → List Byte → Option (List Byte × Nat × List CIter)
  | 0, _, _, _ => none
  | fuel + 1, output, sc, pending =>
    let increase := increaseOf size
    let output1 := if output.length < sc + increase then resizeTo output (sc + increase)
      else output
    let window := increase % U32
    let written := min window pending.length
    let output2 := writeAt output1 sc (pending.take written)
    let availOut := window - written
    let sc2 := sc + (increase - availOut)
    let it : CIter := ⟨sc, sc2, output1.length, window, written, decide (availOut = 0)⟩
    if availOut = 0 then
      match compressLoop size fuel output2 sc2 (pending.drop written) with
      | none => none
      | some (out3, sc3, tr) => some (out3, sc3, it :: tr)
    else
      some (output2, sc2, [it])

/-- The state of a `gzip::Compressor`: the configured ceiling `max_`
and compression level `level_`. -/
structure Compressor where
  max_ : Nat
  level_ : Int

/-- Embedding of `Compressor::compress(output, data, size)` (the
deflate driver, parameterised by the codec's deflate behaviour).  If
`size > max_` it throws; otherwise it feeds the codec's compressed
stream through the growth loop and finally resizes the container to
`size_compressed`.  `deflateInit2` is assumed to succeed (its failure
involves no wrapper logic).  `none` models the loop never exiting. -/
def Compressor.compress (c : Compressor) (f : Int → List Byte → List Byte)
    (output : List Byte) (data : List Byte) :
    Option (Except GzipError (List Byte × List CIter)) :=
  if data.length > c.max_ then some (.error .sizeGuard)
  else
    let pending := f c.level_ data
    match compressLoop data.length (pending.length + 1) output 0 pending with
    | none => none
    | some (out, sc, tr) => some (.ok (resizeTo out sc, tr))

/-- Embedding of the free function `gzip::compress(data, level)` (all
three overloads share it): a fresh `Compressor` with the default
ceiling `2000000000` and an empty output container. -/
def compress (cd : Codec) (data : List Byte) (level : Int) :
    Option (Except GzipError (List Byte)) :=
  (Compressor.compress ⟨2000000000, level⟩ cd.deflateRun [] data).map
    (Except.map Prod.fst)

/-! ## Behaviour of the compress loop -/

theorem compressLoop_run (size : Nat) (hinc : increaseOf size < U32) :
    ∀ (fuel : Nat) (pending output : List Byte) (sc : Nat),
      pending.length < fuel → sc ≤ output.length →
      output.length ≤ sc + increaseOf size →
      ∃ out2 tr,
        compressLoop size fuel output sc pending = some (out2, sc + pending.length, tr) ∧
        sc + pending.length ≤ out2.length ∧
        out2.take (sc + pending.length) = output.take sc ++ pending ∧
        (tr.map CIter.written).sum = pending.length ∧
        ∀ it ∈ tr,
          it.bufLen = it.scBefore + increaseOf size ∧
          it.window = increaseOf size ∧
          it.scAfter = it.scBefore + it.written ∧
          it.cont = decide (it.written = it.window) := by
  intro fuel
  induction fuel with
  | zero =>
    intro pending output sc hfuel hsc hlen
    exact absurd hfuel (Nat.not_lt_zero _)
  | succ fuel ih =>
    intro pending output sc hfuel hsc hlen
    have hwin : increaseOf size % U32 = increaseOf size := Nat.mod_eq_of_lt hinc
    have hge : 1024 ≤ increaseOf size := by unfold increaseOf; omega
    have hbuf : (if output.length < sc + increaseOf size then
        resizeTo output (sc + increaseOf size) else output).length = sc + increaseOf size := by
      by_cases hres : output.length < sc + increaseOf size
      · rw [if_pos hres, resizeTo_length]
      · rw [if_neg hres]; omega
    have hbufTake : (if output.length < sc + increaseOf size then
        resizeTo output (sc + increaseOf size) else output).take sc = output.take sc := by
      by_cases hres : output.length < sc + increaseOf size
      · rw [if_pos hres, resizeTo_take output (sc + increaseOf size) sc hsc (by omega)]
      · rw [if_neg hres]
    set output1 := (if output.length < sc + increaseOf size then
      resizeTo output (sc + increaseOf size) else output) with houtput1
    by_cases hcase : increaseOf size ≤ pending.length
    · -- the codec fills the whole window: the loop repeats
      have hm : increaseOf size ⊓ pending.length = increaseOf size := min_eq_left hcase
      have hwlen : (pending.take (increaseOf size)).length = increaseOf size := by
        rw [List.length_take]; omega
      have h2len : (writeAt output1 sc (pending.take (increaseOf size))).length
          = sc + increaseOf size := by
        rw [writeAt_length output1 sc _ (by rw [hwlen, hbuf]), hbuf]
      obtain ⟨out3, tr3, heq, hle3, htake3, hsum3, htr3⟩ :=
        ih (pending.drop (increaseOf size))
          (writeAt output1 sc (pending.take (increaseOf size)))
          (sc + increaseOf size)
          (by rw [List.length_drop]; omega)
          h2len.ge
          (by rw [h2len]; omega)
      have hlen2 : sc + increaseOf size + (pending.drop (increaseOf size)).length
          = sc + pending.length := by rw [List.length_drop]; omega
      refine ⟨out3, ⟨sc, sc + increaseOf size, sc + increaseOf size,
        increaseOf size, increaseOf size, true⟩ :: tr3, ?_, ?_, ?_, ?_, ?_⟩
      · rw [compressLoop]
        simp only [hwin, hm, Nat.sub_self, Nat.sub_zero, ← houtput1, hbuf,
          eq_self_iff_true, if_true, decide_True]
        rw [heq]
        dsimp only
        rw [hlen2]
      · rw [List.length_drop] at hle3; omega
      · have hw := writeAt_take output1 sc (pending.take (increaseOf size)) (by omega)
        rw [hwlen] at hw
        rw [hw, hbufTake, List.append_assoc, List.take_append_drop] at htake3
        rw [hlen2] at htake3
        exact htake3
      · simp only [List.map_cons, List.sum_cons, hsum3, List.length_drop]
        omega
      · intro it hit
        rcases List.mem_cons.mp hit with h | h
        · subst h
          exact ⟨rfl, rfl, rfl, by simp⟩
        · exact htr3 it h
    · -- the codec leaves part of the window unused: the loop exits
      push_neg at hcase
      have hm : increaseOf size ⊓ pending.length = pending.length :=
        min_eq_right (le_of_lt hcase)
      have h2len : (writeAt output1 sc pending).length = sc + increaseOf size := by
        rw [writeAt_length output1 sc pending (by omega), hbuf]
      refine ⟨writeAt output1 sc pending,
        [⟨sc, sc + pending.length, sc + increaseOf size, increaseOf size, pending.length,
          decide (increaseOf size - pending.length = 0)⟩], ?_, ?_, ?_, ?_, ?_⟩
      · rw [compressLoop]
        simp only [hwin, hm, ← houtput1, hbuf, List.take_length]
        rw [if_neg (by omega), Nat.sub_sub_self (le_of_lt hcase)]
      · omega
      · have hw := writeAt_take output1 sc pending (by omega)
        rw [hw, hbufTake]
      · simp
      · intro it hit
        rcases List.mem_cons.mp hit with h | h
        · subst h
          refine ⟨rfl, rfl, rfl, ?_⟩
          have h1 : ¬ (increaseOf size - pending.length = 0) := by omega
          have h2 : ¬ (pending.length = increaseOf size) := by omega
          simp [h1, h2]
        · simp at h

/-- The compress-driver contract the spec asserts (claim C5), relative
to a run producing final container `finalOut` with trace `tr`: every
pass leaves exactly `increase` bytes of room past the bytes already
produced, hands the codec exactly that window, advances the running
total by exactly the bytes written, repeats exactly when the whole
window was consumed, and the final container holds exactly the total
bytes produced. -/
def CompressDriverSpec (size : Nat) (finalOut : List Byte) (tr : List CIter) : Prop :=
  (∀ it ∈ tr,
      it.bufLen = it.scBefore + increaseOf size ∧
      it.window = increaseOf size ∧
      it.scAfter = it.scBefore + it.written ∧
      it.cont = decide (it.written = it.window)) ∧
  finalOut.length = (tr.map CIter.written).sum

instance (size : Nat) (finalOut : List Byte) (tr : List CIter) :
    Decidable (CompressDriverSpec size finalOut tr) := by
  unfold CompressDriverSpec
  infer_instance

set_option maxRecDepth 8000 in
/-- Helper: starting from an empty container, `Compressor::compress`
returns exactly the codec's compressed stream together with a trace
satisfying the driver contract. -/
theorem Compressor.compress_empty_ok (max : Nat) (level : Int)
    (f : Int → List Byte → List Byte) (data : List Byte)
    (hmax : data.length ≤ max) (hinc : increaseOf data.length < U32) :
    ∃ tr, Compressor.compress ⟨max, level⟩ f [] data = some (.ok (f level data, tr)) ∧
      CompressDriverSpec data.length (f level data) tr := by
  obtain ⟨out2, tr, heq, hle, htake, hsum, htr⟩ :=
    compressLoop_run data.length hinc ((f level data).length + 1) (f level data) [] 0
      (by omega) (by simp) (by simp)
  have hfinal : resizeTo out2 (0 + (f level data).length) = f level data := by
    rw [resizeTo_of_le _ _ (by omega)]
    simpa using htake
  refine ⟨tr, ?_, htr, by rw [hsum]⟩
  unfold Compressor.compress
  dsimp only
  rw [if_neg (by omega : ¬ data.length > max), heq]
  dsimp only
  rw [hfinal]

/-! ## decompress.hpp: the decompress driver -/

/-- One iteration of the decompress do/while loop as recorded in the run
trace: `size_uncompressed` before the pass, the `resize_to` value that
was applied, the `avail_out` window, the bytes written and the status
`inflate` returned. -/
structure DIter where
  scBefore : Nat
  resizedTo : Nat
  window : Nat
  written : Nat
  ret : Int
  deriving DecidableEq

/-- One call `inflate(&inflate_s, Z_FINISH)` of the abstract codec:
given the bytes the stream still has to produce, the codec's terminal
behaviour and the output window, it returns the bytes written by this
call, the status, and the contents of `inflate_s.msg`.  While more
output is pending than fits the window the codec fills the window and
reports `Z_OK`; once the remaining output fits it emits it and reports
the terminal behaviour: the stored error status for a corrupt stream,
`Z_STREAM_END` for a well-formed one, and `Z_BUF_ERROR` when it can
make no progress at all. -/
def inflateStep (pending : List Byte) (err : Option (Int × String)) (window : Nat) :
    Nat × Int × String :=
  if window < pending.length then (window, Z_OK, "")
  else
    match err with
    | some (code, msg) => (pending.length, code, msg)
    | none => (pending.length, if pending.isEmpty then Z_BUF_ERROR else Z_STREAM_END, "")

/-- The do/while loop of `Decompressor::decompress` (lines 272-289 of
`decompress.hpp`).  `twoSize` is the `std::size_t` value of `2 * size`.
Each pass computes `resize_to = size_uncompressed + 2 * size` and throws
if it exceeds `max_`, resizes the container to `resize_to`, hands the
codec the window `avail_out = static_cast<unsigned int>(2 * size)`
(hence `% 2 ^ 32`), throws with the codec's message if `inflate`
returned a status other than `Z_STREAM_END`, `Z_OK` or `Z_BUF_ERROR`,
adds `2 * size - avail_out` to the running total, and repeats while
`avail_out == 0`.  The first component is `none` when the loop did not
exit within `fuel` passes; the second is the trace of performed
iterations. -/
def decompressLoop (max twoSize : Nat) :
    Nat → List Byte → Nat → List Byte → Option (Int × String) →
      Option (Except GzipError (List Byte × Nat)) × List DIter
  | 0, _, _, _, _ => (none, [])
  | fuel + 1, output, sc, pending, err =>
    let resize_to := sc + twoSize
    if resize_to > max then (some (.error .resizeGuard), [])
    else
      let output1 := resizeTo output resize_to
      let window := twoSize % U32
      let step := inflateStep pending err window
      let written := step.1
      let ret := step.2.1
      let it : DIter := ⟨sc, resize_to, window, written, ret⟩
      if ret ≠ Z_STREAM_END ∧ ret ≠ Z_OK ∧ ret ≠ Z_BUF_ERROR then
        (some (.error (.codec step.2.2)), [it])
      else
        let output2 := writeAt output1 sc (pending.take written)
        let availOut := window - written
        let sc2 := sc + (twoSize - availOut)
        if availOut = 0 then
          let r := decompressLoop max twoSize fuel output2 sc2 (pending.drop written) err
          (r.1, it :: r.2)
        else
          (some (.ok (output2, sc2)), [it])

/-- The state of a `gzip::Decompressor`: the configured ceiling `max_`. -/
structure Decompressor where
  max_ : Nat

/-- Embedding of `Decompressor::decompress(output, data, size)` (the
inflate driver).  `spec` is the codec's behaviour on the compressed
input (which the source hands to the codec via `next_in`) and `size`
is the input's length as a `std::size_t` value.  The guard is the
source's `size > max_ || (size * 2) > max_`, with `size * 2` computed
in `std::size_t`.  `inflateInit2` is assumed to succeed (its failure
involves no wrapper logic).  A first component of `none` models the
loop never exiting. -/
def Decompressor.decompress (d : Decompressor) (spec : InflateSpec) (size : Nat)
    (output : List Byte) :
    Option (Except GzipError (List Byte)) × List DIter :=
  if size > d.max_ ∨ (size * 2) % U64 > d.max_ then (some (.error .sizeGuard), [])
  else
    let r := decompressLoop d.max_ ((size * 2) % U64) (spec.out.length + 2) output 0
      spec.out spec.err
    match r.1 with
    | none => (none, r.2)
    | some (.error e) => (some (.error e), r.2)
    | some (.ok (out, sc)) => (some (.ok (resizeTo out sc)), r.2)

/-- Embedding of the free function `gzip::decompress(data, max_bytes)`
(all three overloads share it): a fresh `Decompressor` with ceiling
`max_bytes` and an empty output container. -/
def decompress (cd : Codec) (data : List Byte) (max_bytes : Nat) :
    Option (Except GzipError (List Byte)) :=
  (Decompressor.decompress ⟨max_bytes⟩ (cd.inflateRun data) data.length []).1

/-! ## Behaviour of the decompress loop -/

theorem decompressLoop_stuck (max : Nat) :
    ∀ (fuel : Nat) (output : List Byte) (sc : Nat) (pending : List Byte),
      sc ≤ max →
      (decompressLoop max 0 fuel output sc pending none).1 = none := by
  intro fuel
  induction fuel with
  | zero =>
    intro output sc pending hsc
    rfl
  | succ fuel ih =>
    intro output sc pending hsc
    rw [decompressLoop]
    dsimp only
    rw [if_neg (by omega : ¬ sc + 0 > max)]
    by_cases hp : 0 < pending.length
    · have hstep : inflateStep pending none (0 % U32) = (0, Z_OK, "") := by
        rw [inflateStep, if_pos (by simpa using hp)]
        simp
      rw [hstep]
      dsimp only
      rw [if_neg (by decide), if_pos (by simp)]
      simpa using ih _ _ _ hsc
    · have hnil : pending = [] := List.length_eq_zero.mp (by omega)
      subst hnil
      have hstep : inflateStep ([] : List Byte) none (0 % U32) = (0, Z_BUF_ERROR, "") := by
        rw [inflateStep, if_neg (by simp)]
        simp
      rw [hstep]
      dsimp only
      rw [if_neg (by decide), if_pos (by simp)]
      simpa using ih _ _ _ hsc

theorem decompressLoop_ceiling (max twoSize : Nat) :
    ∀ (fuel : Nat) (output : List Byte) (sc : Nat) (pending : List Byte)
      (err : Option (Int × String)),
      (∀ it ∈ (decompressLoop max twoSize fuel output sc pending err).2,
          it.scBefore ≤ max ∧ it.resizedTo ≤ max) ∧
      (∀ out sc2, (decompressLoop max twoSize fuel output sc pending err).1
          = some (.ok (out, sc2)) → sc2 ≤ max) := by
  intro fuel
  induction fuel with
  | zero =>
    intro output sc pending err
    constructor
    · intro it hit
      simp [decompressLoop] at hit
    · intro out sc2 h
      simp [decompressLoop] at h
  | succ fuel ih =>
    intro output sc pending err
    rw [decompressLoop]
    dsimp only
    by_cases hrt : sc + twoSize > max
    · rw [if_pos hrt]
      constructor
      · intro it hit
        simp at hit
      · intro out sc2 h
        simp at h
    · rw [if_neg hrt]
      by_cases hbad : (inflateStep pending err (twoSize % U32)).2.1 ≠ Z_STREAM_END ∧
          (inflateStep pending err (twoSize % U32)).2.1 ≠ Z_OK ∧
          (inflateStep pending err (twoSize % U32)).2.1 ≠ Z_BUF_ERROR
      · rw [if_pos hbad]
        constructor
        · intro it hit
          rw [List.mem_singleton] at hit
          subst hit
          dsimp only
          exact ⟨by omega, by omega⟩
        · intro out sc2 h
          simp at h
      · rw [if_neg hbad]
        by_cases hao : twoSize % U32 - (inflateStep pending err (twoSize % U32)).1 = 0
        · rw [if_pos hao]
          dsimp only
          constructor
          · intro it hit
            rcases List.mem_cons.mp hit with h | h
            · subst h
              dsimp only
              exact ⟨by omega, by omega⟩
            · exact (ih _ _ _ _).1 it h
          · intro out sc2 h
            exact (ih _ _ _ _).2 out sc2 h
        · rw [if_neg hao]
          constructor
          · intro it hit
            rw [List.mem_singleton] at hit
            subst hit
            dsimp only
            exact ⟨by omega, by omega⟩
          · intro out sc2 h
            simp only [Option.some.injEq, Except.ok.injEq, Prod.mk.injEq] at h
            omega

theorem decompressLoop_ok (max twoSize : Nat) (hpos : 0 < twoSize) (hU : twoSize < U32) :
    ∀ (fuel : Nat) (pending output : List Byte) (sc : Nat),
      pending.length < fuel →
      sc + pending.length + twoSize ≤ max →
      sc ≤ output.length →
      ∃ out2,
        (decompressLoop max twoSize fuel output sc pending none).1
          = some (.ok (out2, sc + pending.length)) ∧
        sc + pending.length ≤ out2.length ∧
        out2.take (sc + pending.length) = output.take sc ++ pending := by
  intro fuel
  induction fuel with
  | zero =>
    intro pending output sc hfuel hmax hsc
    exact absurd hfuel (Nat.not_lt_zero _)
  | succ fuel ih =>
    intro pending output sc hfuel hmax hsc
    have hw : twoSize % U32 = twoSize := Nat.mod_eq_of_lt hU
    rw [decompressLoop]
    dsimp only
    rw [if_neg (by omega : ¬ sc + twoSize > max)]
    by_cases hfull : twoSize % U32 < pending.length
    · -- the codec fills the whole window: the loop repeats
      have hstep : inflateStep pending none (twoSize % U32)
          = (twoSize % U32, Z_OK, "") := by
        rw [inflateStep, if_pos hfull]
      rw [hstep]
      dsimp only
      rw [if_neg (by decide)]
      simp only [hw, Nat.sub_self, Nat.sub_zero] at hfull ⊢
      rw [if_pos trivial]
      have hchunk : (pending.take twoSize).length = twoSize := by
        rw [List.length_take]; omega
      have hrlen : (resizeTo output (sc + twoSize)).length = sc + twoSize :=
        resizeTo_length output (sc + twoSize)
      have holen : (writeAt (resizeTo output (sc + twoSize)) sc
          (pending.take twoSize)).length = sc + twoSize := by
        rw [writeAt_length _ sc _ (by rw [hchunk, hrlen]), hrlen]
      obtain ⟨out2, h1, h2, h3⟩ :=
        ih (pending.drop twoSize)
          (writeAt (resizeTo output (sc + twoSize)) sc (pending.take twoSize))
          (sc + twoSize)
          (by rw [List.length_drop]; omega)
          (by rw [List.length_drop]; omega)
          (by omega)
      have hidx : sc + twoSize + (pending.drop twoSize).length = sc + pending.length := by
        rw [List.length_drop]; omega
      rw [hidx] at h1 h2 h3
      refine ⟨out2, h1, h2, ?_⟩
      have hwt := writeAt_take (resizeTo output (sc + twoSize)) sc
        (pending.take twoSize) (by omega)
      rw [hchunk, resizeTo_take output (sc + twoSize) sc hsc (by omega)] at hwt
      rw [h3, hwt, List.append_assoc, List.take_append_drop]
    · -- the remaining output fits the window
      push_neg at hfull
      rw [hw] at hfull
      have hstep : inflateStep pending none (twoSize % U32)
          = (pending.length,
             if pending.isEmpty then Z_BUF_ERROR else Z_STREAM_END, "") := by
        rw [inflateStep, if_neg (by omega : ¬ twoSize % U32 < pending.length)]
      rw [hstep]
      dsimp only
      have hallow : ¬ ((if pending.isEmpty then Z_BUF_ERROR else Z_STREAM_END)
            ≠ Z_STREAM_END ∧
          (if pending.isEmpty then Z_BUF_ERROR else Z_STREAM_END) ≠ Z_OK ∧
          (if pending.isEmpty then Z_BUF_ERROR else Z_STREAM_END) ≠ Z_BUF_ERROR) := by
        by_cases hc : pending.isEmpty = true
        · rw [if_pos hc]; decide
        · rw [if_neg hc]; decide
      rw [if_neg hallow, List.take_length]
      have hrlen : (resizeTo output (sc + twoSize)).length = sc + twoSize :=
        resizeTo_length output (sc + twoSize)
      have holen : (writeAt (resizeTo output (sc + twoSize)) sc pending).length
          = sc + twoSize := by
        rw [writeAt_length _ sc _ (by omega), hrlen]
      have hwt : (writeAt (resizeTo output (sc + twoSize)) sc pending).take
          (sc + pending.length) = output.take sc ++ pending := by
        have h0 := writeAt_take (resizeTo output (sc + twoSize)) sc pending (by omega)
        rwa [resizeTo_take output (sc + twoSize) sc hsc (by omega)] at h0
      by_cases hao : twoSize % U32 - pending.length = 0
      · -- exact fit: one more pass writes nothing and exits
        rw [if_pos hao]
        rw [hw] at hao
        dsimp only
        obtain ⟨out2, h1, h2, h3⟩ :=
          ih (pending.drop pending.length)
            (writeAt (resizeTo output (sc + twoSize)) sc pending)
            (sc + (twoSize - (twoSize % U32 - pending.length)))
            (by rw [List.drop_length]; simp only [List.length_nil]; omega)
            (by rw [List.drop_length, hw]; simp only [List.length_nil]; omega)
            (by rw [hw]; omega)
        have e1 : sc + (twoSize - (twoSize % U32 - pending.length))
            + (pending.drop pending.length).length = sc + pending.length := by
          rw [List.drop_length, hw]; simp only [List.length_nil]; omega
        have e2 : sc + (twoSize - (twoSize % U32 - pending.length))
            = sc + pending.length := by
          rw [hw]; omega
        rw [e1] at h1 h2 h3
        rw [List.drop_length, List.append_nil, e2, hwt] at h3
        exact ⟨out2, h1, h2, h3⟩
      · -- part of the window is unused: the loop exits
        rw [if_neg hao]
        rw [hw] at hao
        dsimp only
        have e2 : sc + (twoSize - (twoSize % U32 - pending.length))
            = sc + pending.length := by
          rw [hw]; omega
        refine ⟨writeAt (resizeTo output (sc + twoSize)) sc pending,
          ?_, by omega, hwt⟩
        rw [e2]

theorem decompressLoop_codec_error (max twoSize : Nat) :
    ∀ (fuel : Nat) (output : List Byte) (sc : Nat) (pending : List Byte)
      (err : Option (Int × String)) (m : String),
      (decompressLoop max twoSize fuel output sc pending err).1
          = some (.error (.codec m)) →
      ∃ c, err = some (c, m) ∧
        c ≠ Z_STREAM_END ∧ c ≠ Z_OK ∧ c ≠ Z_BUF_ERROR := by
  intro fuel
  induction fuel with
  | zero =>
    intro output sc pending err m h
    simp [decompressLoop] at h
  | succ fuel ih =>
    intro output sc pending err m h
    rw [decompressLoop] at h
    dsimp only at h
    by_cases hrt : sc + twoSize > max
    · rw [if_pos hrt] at h
      simp at h
    · rw [if_neg hrt] at h
      by_cases hbad : (inflateStep pending err (twoSize % U32)).2.1 ≠ Z_STREAM_END ∧
          (inflateStep pending err (twoSize % U32)).2.1 ≠ Z_OK ∧
          (inflateStep pending err (twoSize % U32)).2.1 ≠ Z_BUF_ERROR
      · rw [if_pos hbad] at h
        dsimp only at h
        rw [inflateStep.eq_def] at hbad h
        by_cases hfull : twoSize % U32 < pending.length
        · rw [if_pos hfull] at hbad
          exact absurd rfl hbad.2.1
        · rw [if_neg hfull] at hbad h
          rcases err with _ | ⟨c, msg⟩
          · dsimp only at hbad
            by_cases hc : pending.isEmpty = true
            · rw [if_pos hc] at hbad
              exact absurd rfl hbad.2.2
            · rw [if_neg hc] at hbad
              exact absurd rfl hbad.1
          · dsimp only at hbad h
            simp only [Option.some.injEq, Except.error.injEq,
              GzipError.codec.injEq] at h
            subst h
            exact ⟨c, rfl, hbad⟩
      · rw [if_neg hbad] at h
        by_cases hao : twoSize % U32 - (inflateStep pending err (twoSize % U32)).1 = 0
        · rw [if_pos hao] at h
          dsimp only at h
          exact ih _ _ _ _ _ h
        · rw [if_neg hao] at h
          simp at h

theorem decompressLoop_codec_error_rev (max twoSize : Nat) (hU : twoSize < U32)
    (hpos : 0 < twoSize) (c : Int) (m : String)
    (hc : c ≠ Z_STREAM_END ∧ c ≠ Z_OK ∧ c ≠ Z_BUF_ERROR) :
    ∀ (fuel : Nat) (pending output : List Byte) (sc : Nat),
      pending.length < fuel →
      sc + pending.length + twoSize ≤ max →
      (decompressLoop max twoSize fuel output sc pending (some (c, m))).1
        = some (.error (.codec m)) := by
  intro fuel
  induction fuel with
  | zero =>
    intro pending output sc hfuel hmax
    exact absurd hfuel (Nat.not_lt_zero _)
  | succ fuel ih =>
    intro pending output sc hfuel hmax
    have hw : twoSize % U32 = twoSize := Nat.mod_eq_of_lt hU
    rw [decompressLoop]
    dsimp only
    rw [if_neg (by omega : ¬ sc + twoSize > max)]
    by_cases hfull : twoSize % U32 < pending.length
    · have hstep : inflateStep pending (some (c, m)) (twoSize % U32)
          = (twoSize % U32, Z_OK, "") := by
        rw [inflateStep, if_pos hfull]
      rw [hstep]
      dsimp only
      rw [if_neg (by decide)]
      simp only [hw, Nat.sub_self, Nat.sub_zero] at hfull ⊢
      rw [if_pos trivial]
      exact ih (pending.drop twoSize) _ _
        (by rw [List.length_drop]; omega)
        (by rw [List.length_drop]; omega)
    · have hstep : inflateStep pending (some (c, m)) (twoSize % U32)
          = (pending.length, c, m) := by
        rw [inflateStep, if_neg hfull]
      rw [hstep]
      dsimp only
      rw [if_pos hc]

theorem U32_eq : U32 = 4294967296 := by norm_num [U32]

theorem U64_eq : U64 = 18446744073709551616 := by norm_num [U64]

/-- Helper: a well-formed stream whose doubled size fits the caps
decompresses to exactly the codec's output. -/
theorem Decompressor.decompress_ok (max size : Nat) (outD output0 : List Byte)
    (hpos : 0 < size) (h32 : size * 2 < U32)
    (hfit : outD.length + size * 2 ≤ max) :
    (Decompressor.decompress ⟨max⟩ ⟨outD, none⟩ size output0).1 = some (.ok outD) := by
  have hUlt : U32 < U64 := by rw [U32_eq, U64_eq]; norm_num
  have ht : (size * 2) % U64 = size * 2 := Nat.mod_eq_of_lt (by omega)
  unfold Decompressor.decompress
  dsimp only
  rw [if_neg (by omega : ¬ (size > max ∨ (size * 2) % U64 > max))]
  obtain ⟨out2, h1, h2, h3⟩ := decompressLoop_ok max ((size * 2) % U64)
      (by omega) (by omega)
      (outD.length + 2) outD output0 0
      (by omega) (by omega) (by omega)
  have hfinal : resizeTo out2 (0 + outD.length) = outD := by
    rw [resizeTo_of_le _ _ (by omega)]
    simpa using h3
  rw [h1]
  dsimp only
  rw [hfinal]

/-- C1 (amended): round-trip through the wrapper.  For every codec
satisfying the round-trip contract, every compression level and every
input within the compressor's default ceiling, IF additionally the
compressed stream is nonempty, its doubled size is exact in
`unsigned int`, and the decompressor's configured ceiling accommodates
the decompressed output plus one output window, THEN
`gzip::decompress(gzip::compress(data), max_bytes)` returns the
original data.  (The extra conditions are forced: see the
counterexample, where a small configured ceiling makes the round trip
throw even though the input itself is within every ceiling.) -/
theorem roundtrip_ok (cd : Codec) (hrt : cd.RoundTrip) (level : Int)
    (max_bytes : Nat) (data : List Byte)
    (hsize : data.length ≤ 2000000000)
    (hpos : 0 < (cd.deflateRun level data).length)
    (h32 : (cd.deflateRun level data).length * 2 < U32)
    (hfit : data.length + (cd.deflateRun level data).length * 2 ≤ max_bytes) :
    ∃ compressed,
      compress cd data level = some (.ok compressed) ∧
      decompress cd compressed max_bytes = some (.ok data) := by
  obtain ⟨tr, hc, _⟩ := Compressor.compress_empty_ok 2000000000 level cd.deflateRun data
    hsize (by unfold increaseOf; rw [U32_eq]; omega)
  refine ⟨cd.deflateRun level data, ?_, ?_⟩
  · rw [compress, hc]
    rfl
  · rw [decompress]
    have hspec : cd.inflateRun (cd.deflateRun level data) = ⟨data, none⟩ := hrt level data
    rw [hspec]
    exact Decompressor.decompress_ok max_bytes (cd.deflateRun level data).length data []
      hpos h32 hfit

/-- C1 (witness): the round-trip theorem at a concrete instance — the
stored-framing codec, the buffer `[104, 105]` and decompression ceiling
100. -/
theorem roundtrip_ok_witness :
    ([104, 105] : List Byte).length ≤ 2000000000 ∧
    0 < (storeCodec.deflateRun 6 [104, 105]).length ∧
    (storeCodec.deflateRun 6 [104, 105]).length * 2 < U32 ∧
    ([104, 105] : List Byte).length
      + (storeCodec.deflateRun 6 [104, 105]).length * 2 ≤ 100 ∧
    ∃ compressed,
      compress storeCodec [104, 105] 6 = some (.ok compressed) ∧
      decompress storeCodec compressed 100 = some (.ok [104, 105]) :=
  ⟨by decide, by decide, by rw [U32_eq]; decide, by decide,
    roundtrip_ok storeCodec storeCodec_roundTrip 6 100 [104, 105]
      (by decide) (by decide) (by rw [U32_eq]; decide) (by decide)⟩

set_option maxRecDepth 100000 in
/-- C1 (counterexample): the round trip is NOT the identity for every
input within the configured maximum.  With the round-trip codec
`storeCodec` and decompression ceiling 20, the two-byte buffer
`[104, 105]` is within the ceiling and compresses fine, but the
compressed stream is 12 bytes and the decompressor's
`(size * 2) > max_` guard throws instead of returning the data: framing
overhead plus the doubled-size guard break the round trip near the
ceiling. -/
theorem roundtrip_within_max_counterexample :
    storeCodec.RoundTrip ∧
    ([104, 105] : List Byte).length ≤ 20 ∧
    compress storeCodec [104, 105] 6 = some (.ok (storeHeader ++ [104, 105])) ∧
    decompress storeCodec (storeHeader ++ [104, 105]) 20
      = some (.error .sizeGuard) :=
  ⟨storeCodec_roundTrip, by decide, by decide, by decide⟩

/-- C4: the decompress do/while loop does NOT terminate on an empty
input buffer (`size = 0`): each pass offers the codec the window
`avail_out = 2 * size = 0`, `inflate` can make no progress, so
`avail_out` stays 0 and `while (avail_out == 0)` repeats — for every
fuel bound the loop is still running, and `Decompressor::decompress`
at size 0 neither returns nor throws.  This refutes the claim that the
loops terminate for all input sizes including 0. -/
theorem decompress_size_zero_diverges (max fuel : Nat)
    (output0 pending : List Byte) (sc : Nat) (hsc : sc ≤ max) :
    (decompressLoop max 0 fuel output0 sc pending none).1 = none ∧
    (Decompressor.decompress ⟨max⟩ ⟨pending, none⟩ 0 output0).1 = none := by
  constructor
  · exact decompressLoop_stuck max fuel output0 sc pending hsc
  · unfold Decompressor.decompress
    dsimp only
    rw [if_neg (by simp)]
    simp only [Nat.zero_mul, Nat.zero_mod]
    rw [decompressLoop_stuck max (pending.length + 2) output0 0 pending (Nat.zero_le _)]

/-- C4 (witness): the divergence at a concrete state. -/
theorem decompress_size_zero_diverges_witness :
    (0 : Nat) ≤ 7 ∧
    ((decompressLoop 7 0 5 [] 0 [1, 2] none).1 = none ∧
     (Decompressor.decompress ⟨7⟩ ⟨[1, 2], none⟩ 0 []).1 = none) :=
  ⟨by decide, decompress_size_zero_diverges 7 5 [] [1, 2] 0 (by decide)⟩

/-- C5 (amended): starting from an empty output container, and with the
input small enough that `static_cast<unsigned int>(increase)` is exact
(`increase < 2^32`), the compress loop follows precisely the claimed
driver algorithm: each pass leaves exactly `increase = size/2 + 1024`
bytes of room past the bytes already produced, offers the codec exactly
that window, advances the running total by exactly the bytes written,
repeats exactly when the whole window was consumed, and on exit the
container is resized to exactly the total bytes produced. -/
theorem compress_driver_spec_holds (max : Nat) (level : Int)
    (f : Int → List Byte → List Byte) (data : List Byte)
    (hmax : data.length ≤ max) (hinc : increaseOf data.length < U32) :
    ∃ tr, Compressor.compress ⟨max, level⟩ f [] data
        = some (.ok (f level data, tr)) ∧
      CompressDriverSpec data.length (f level data) tr :=
  Compressor.compress_empty_ok max level f data hmax hinc

/-- C5 (witness): the driver contract at a concrete run. -/
theorem compress_driver_spec_holds_witness :
    ([1, 2, 3] : List Byte).length ≤ 100 ∧ increaseOf 3 < U32 ∧
    ∃ tr, Compressor.compress ⟨100, 6⟩ storeCodec.deflateRun [] [1, 2, 3]
        = some (.ok (storeCodec.deflateRun 6 [1, 2, 3], tr)) ∧
      CompressDriverSpec 3 (storeCodec.deflateRun 6 [1, 2, 3]) tr :=
  ⟨by decide, by rw [increaseOf, U32_eq]; decide,
    compress_driver_spec_holds 100 6 storeCodec.deflateRun [1, 2, 3]
      (by decide) (by rw [increaseOf, U32_eq]; decide)⟩

set_option maxRecDepth 100000 in
/-- C5 (counterexample): the claimed driver contract fails when the
caller's output container is already larger than needed — the loop then
performs no resize, so more than `increase` bytes of room sit past the
bytes already produced.  With a 1100-byte initial container and a
3-byte input (`increase = 1025`), the single pass records a buffer
length of 1100 rather than 0 + 1025, falsifying the contract.  The
second conjunct records that for huge sizes (here 2^33) the window
handed to the codec, `static_cast<unsigned int>(increase)`, is NOT
`increase` either — forcing the amended claim's size bound. -/
theorem compress_driver_claim_counterexample :
    ((Compressor.compress ⟨100, 6⟩ storeCodec.deflateRun
        (List.replicate 1100 0) [1, 2, 3]).map
        (Except.map (fun p => decide (CompressDriverSpec 3 p.1 p.2)))
      = some (.ok false)) ∧
    increaseOf (2 ^ 33) % U32 ≠ increaseOf (2 ^ 33) :=
  ⟨by decide, by decide⟩

/-- C3 (amended): the ceiling is enforced throughout `decompress`: the
input guard refuses inputs above `max_`, every resize the loop performs
stays within `max_`, and a successful result is itself within `max_`.
On the compress side only the input size is checked — the compress
output buffer may exceed the ceiling without a throw (see the
counterexample). -/
theorem decompress_ceiling_invariant (max size : Nat) (spec : InflateSpec)
    (output0 : List Byte) :
    (size ≤ max ∨ (Decompressor.decompress ⟨max⟩ spec size output0).1
        = some (.error .sizeGuard)) ∧
    (∀ it ∈ (Decompressor.decompress ⟨max⟩ spec size output0).2,
        it.scBefore ≤ max ∧ it.resizedTo ≤ max) ∧
    (∀ out, (Decompressor.decompress ⟨max⟩ spec size output0).1 = some (.ok out) →
        out.length ≤ max) ∧
    (∀ (f : Int → List Byte → List Byte) (level : Int) (out0 data : List Byte) r,
        Compressor.compress ⟨max, level⟩ f out0 data = some (.ok r) →
        data.length ≤ max) := by
  have hcomp : ∀ (f : Int → List Byte → List Byte) (level : Int)
      (out0 data : List Byte) r,
      Compressor.compress ⟨max, level⟩ f out0 data = some (.ok r) →
      data.length ≤ max := by
    intro f level out0 data r h
    by_cases hd : data.length > max
    · rw [Compressor.compress] at h
      dsimp only at h
      rw [if_pos hd] at h
      simp at h
    · omega
  unfold Decompressor.decompress
  dsimp only
  by_cases hguard : size > max ∨ (size * 2) % U64 > max
  · rw [if_pos hguard]
    refine ⟨Or.inr rfl, ?_, ?_, hcomp⟩
    · intro it hit
      simp at hit
    · intro out h
      simp at h
  · rw [if_neg hguard]
    push_neg at hguard
    have hloop := decompressLoop_ceiling max ((size * 2) % U64)
      (spec.out.length + 2) output0 0 spec.out spec.err
    rcases hr : (decompressLoop max ((size * 2) % U64) (spec.out.length + 2)
        output0 0 spec.out spec.err).1 with _ | r1
    · dsimp only
      refine ⟨Or.inl (by omega), hloop.1, ?_, hcomp⟩
      intro out h
      simp at h
    · rcases r1 with e | ⟨out1, sc1⟩
      · dsimp only
        refine ⟨Or.inl (by omega), hloop.1, ?_, hcomp⟩
        intro out h
        simp at h
      · dsimp only
        refine ⟨Or.inl (by omega), hloop.1, ?_, hcomp⟩
        intro out h
        simp only [Option.some.injEq, Except.ok.injEq] at h
        rw [← h, resizeTo_length]
        exact hloop.2 out1 sc1 hr

/-- C3 (witness): a concrete successful in-ceiling decompression run to
which the invariant applies. -/
theorem decompress_ceiling_invariant_witness :
    (Decompressor.decompress ⟨100⟩ ⟨[5, 6], none⟩ 4 []).1 = some (.ok [5, 6]) ∧
    ([5, 6] : List Byte).length ≤ 100 :=
  ⟨by decide,
    (decompress_ceiling_invariant 100 4 ⟨[5, 6], none⟩ []).2.2.1 [5, 6] (by decide)⟩

set_option maxRecDepth 100000 in
/-- C3 (counterexample): the compress side enforces no output ceiling.
With ceiling 4, the 3-byte input passes the input check, no throw
occurs, and the compress output container ends up 13 bytes long —
beyond the configured maximum — refuting the claim that the output
buffer never exceeds the ceiling and that exceeding it is refused by
throwing. -/
theorem compress_output_ceiling_counterexample :
    ([1, 2, 3] : List Byte).length ≤ 4 ∧
    (Compressor.compress ⟨4, 6⟩ storeCodec.deflateRun [] [1, 2, 3]).map
        (Except.map (fun p => decide (p.1.length ≤ 4)))
      = some (.ok false) :=
  ⟨by decide, by decide⟩

/-- C6: `gzip::decompress` throws a `std::runtime_error` carrying
exactly the codec's `inflate_s.msg` string precisely when an `inflate`
call returned a status other than `Z_STREAM_END`, `Z_OK` and
`Z_BUF_ERROR`.  Forward direction: a codec-message error can only arise
from such a status, with the message taken verbatim from the codec.
Backward direction: whenever the codec's behaviour ends in such a
status (and the run reaches it: nonzero input, exact casts, ceilings
accommodating the stream), the call throws exactly that message. -/
theorem decompress_codec_error_iff (max size : Nat) (spec : InflateSpec)
    (output0 : List Byte) :
    (∀ m, (Decompressor.decompress ⟨max⟩ spec size output0).1
        = some (.error (.codec m)) →
      ∃ c, spec.err = some (c, m) ∧
        c ≠ Z_STREAM_END ∧ c ≠ Z_OK ∧ c ≠ Z_BUF_ERROR) ∧
    (∀ c m, spec.err = some (c, m) →
      c ≠ Z_STREAM_END → c ≠ Z_OK → c ≠ Z_BUF_ERROR →
      0 < size → size * 2 < U32 → spec.out.length + size * 2 ≤ max →
      (Decompressor.decompress ⟨max⟩ spec size output0).1
        = some (.error (.codec m))) := by
  constructor
  · intro m h
    rw [Decompressor.decompress] at h
    dsimp only at h
    by_cases hguard : size > max ∨ (size * 2) % U64 > max
    · rw [if_pos hguard] at h
      simp at h
    · rw [if_neg hguard] at h
      rcases hr : (decompressLoop max ((size * 2) % U64) (spec.out.length + 2)
          output0 0 spec.out spec.err).1 with _ | r1
      · rw [hr] at h
        dsimp only at h
        simp at h
      · rcases r1 with e | ⟨out1, sc1⟩
        · rw [hr] at h
          dsimp only at h
          simp only [Option.some.injEq, Except.error.injEq] at h
          subst h
          exact decompressLoop_codec_error max ((size * 2) % U64)
            (spec.out.length + 2) output0 0 spec.out spec.err m hr
        · rw [hr] at h
          dsimp only at h
          simp at h
  · intro c m hspec hcE hcO hcB hposz h32 hfit
    have hUlt : U32 < U64 := by rw [U32_eq, U64_eq]; norm_num
    have ht : (size * 2) % U64 = size * 2 := Nat.mod_eq_of_lt (by omega)
    unfold Decompressor.decompress
    dsimp only
    rw [if_neg (by omega : ¬ (size > max ∨ (size * 2) % U64 > max))]
    have hrev := decompressLoop_codec_error_rev max ((size * 2) % U64)
      (by omega) (by omega) c m ⟨hcE, hcO, hcB⟩
      (spec.out.length + 2) spec.out output0 0
      (by omega) (by omega)
    rw [hspec, hrev]

/-- C6 (witness): a corrupt stream (terminal status `Z_DATA_ERROR` with
message "incorrect header check") makes `decompress` throw exactly that
message. -/
theorem decompress_codec_error_iff_witness :
    (⟨[5, 6], some (Z_DATA_ERROR, "incorrect header check")⟩ : InflateSpec).err
        = some (Z_DATA_ERROR, "incorrect header check") ∧
    (Decompressor.decompress ⟨100⟩
        ⟨[5, 6], some (Z_DATA_ERROR, "incorrect header check")⟩ 4 []).1
      = some (.error (.codec "incorrect header check")) :=
  ⟨rfl,
    (decompress_codec_error_iff 100 4
        ⟨[5, 6], some (Z_DATA_ERROR, "incorrect header check")⟩ []).2
      Z_DATA_ERROR "incorrect header check" rfl (by decide) (by decide) (by decide)
      (by decide) (by rw [U32_eq]; decide) (by decide)⟩

/-- C7: oversized inputs are refused up front with a
`std::runtime_error` before any data is handed to the codec:
`Compressor::compress` throws its size guard whenever the input size
exceeds `max_` — for every codec behaviour and every level, so the
codec is never consulted — and `Decompressor::decompress` likewise
whenever the compressed input size exceeds `max_`; neither call
produces any output. -/
theorem oversized_input_refused (max size : Nat) (data : List Byte) :
    (∀ (f : Int → List Byte → List Byte) (level : Int) (output0 : List Byte),
      data.length > max →
      Compressor.compress ⟨max, level⟩ f output0 data
        = some (.error .sizeGuard)) ∧
    (∀ (spec : InflateSpec) (output0 : List Byte),
      size > max →
      (Decompressor.decompress ⟨max⟩ spec size output0).1
        = some (.error .sizeGuard)) := by
  constructor
  · intro f level output0 h
    unfold Compressor.compress
    dsimp only
    rw [if_pos h]
  · intro spec output0 h
    unfold Decompressor.decompress
    dsimp only
    rw [if_pos (Or.inl h)]

/-- C7 (witness): both refusals at concrete oversized inputs with
ceiling 5. -/
theorem oversized_input_refused_witness :
    (([1, 2, 3, 4, 5, 6] : List Byte).length > 5 ∧
      Compressor.compress ⟨5, 6⟩ storeCodec.deflateRun [] [1, 2, 3, 4, 5, 6]
        = some (.error .sizeGuard)) ∧
    ((7 : Nat) > 5 ∧
      (Decompressor.decompress ⟨5⟩ ⟨[], none⟩ 7 []).1
        = some (.error .sizeGuard)) :=
  ⟨⟨by decide, (oversized_input_refused 5 7 [1, 2, 3, 4, 5, 6]).1
      storeCodec.deflateRun 6 [] (by decide)⟩,
   ⟨by decide, (oversized_input_refused 5 7 [1, 2, 3, 4, 5, 6]).2
      ⟨[], none⟩ [] (by decide)⟩⟩

/-- C9: `decompress` refuses before attempting any decompression
whenever `size * 2` (computed in `std::size_t`) exceeds the configured
ceiling; with the default ceiling 2000000000 every compressed input
larger than 1000000000 bytes is refused — a stricter bound than the
input itself exceeding the ceiling. -/
theorem decompress_double_size_guard (max size : Nat) (spec : InflateSpec)
    (output0 : List Byte) :
    ((size * 2) % U64 > max →
      (Decompressor.decompress ⟨max⟩ spec size output0).1
        = some (.error .sizeGuard)) ∧
    (1000000000 < size →
      (Decompressor.decompress ⟨2000000000⟩ spec size output0).1
        = some (.error .sizeGuard)) := by
  constructor
  · intro h
    unfold Decompressor.decompress
    dsimp only
    rw [if_pos (Or.inr h)]
  · intro h
    unfold Decompressor.decompress
    dsimp only
    by_cases h1 : size > 2000000000
    · rw [if_pos (Or.inl h1)]
    · have h2 : (size * 2) % U64 = size * 2 := by
        rw [U64_eq]
        apply Nat.mod_eq_of_lt
        omega
      rw [if_pos (Or.inr (by omega))]

/-- C9 (witness): size 6 against ceiling 10 trips the doubled-size
guard (12 > 10), and size 1000000001 against the default ceiling is
refused. -/
theorem decompress_double_size_guard_witness :
    ((6 * 2) % U64 > 10 ∧
      (Decompressor.decompress ⟨10⟩ ⟨[], none⟩ 6 []).1
        = some (.error .sizeGuard)) ∧
    (1000000000 < 1000000001 ∧
      (Decompressor.decompress ⟨2000000000⟩ ⟨[], none⟩ 1000000001 []).1
        = some (.error .sizeGuard)) :=
  ⟨⟨by rw [U64_eq]; decide,
      (decompress_double_size_guard 10 6 ⟨[], none⟩ []).1 (by rw [U64_eq]; decide)⟩,
   ⟨by decide,
      (decompress_double_size_guard 10 1000000001 ⟨[], none⟩ []).2 (by decide)⟩⟩

/-! ## Determinism and absence of mutation -/

/-- The `const` member call `Compressor::compress` as a state
transformer: the method reads `max_` and `level_` and assigns neither
field, so the post-state equals the pre-state. -/
def Compressor.compressMember (c : Compressor) (f : Int → List Byte → List Byte)
    (output data : List Byte) :
    Option (Except GzipError (List Byte × List CIter)) × Compressor :=
  (Compressor.compress c f output data, c)

/-- The `const` member call `Decompressor::decompress` as a state
transformer: the method reads `max_` and assigns nothing, so the
post-state equals the pre-state. -/
def Decompressor.decompressMember (d : Decompressor) (spec : InflateSpec)
    (size : Nat) (output : List Byte) :
    (Option (Except GzipError (List Byte)) × List DIter) × Decompressor :=
  (Decompressor.decompress d spec size output, d)

/-- C10: the wrapper operations are deterministic functions of the
configured fields and the call arguments — two objects with byte-equal
configuration produce identical results on identical inputs — and no
call mutates the configured level or ceiling; `is_compressed` is
likewise a pure function of the buffer. -/
theorem wrapper_deterministic (c1 c2 : Compressor) (d1 d2 : Decompressor)
    (f : Int → List Byte → List Byte) (spec : InflateSpec) (size : Nat)
    (output data : List Byte)
    (hmaxc : c1.max_ = c2.max_) (hlevel : c1.level_ = c2.level_)
    (hmaxd : d1.max_ = d2.max_) :
    (Compressor.compressMember c1 f output data).1
        = (Compressor.compressMember c2 f output data).1 ∧
    (Compressor.compressMember c1 f output data).2 = c1 ∧
    (Decompressor.decompressMember d1 spec size output).1
        = (Decompressor.decompressMember d2 spec size output).1 ∧
    (Decompressor.decompressMember d1 spec size output).2 = d1 ∧
    (∀ data2, data = data2 → is_compressed data = is_compressed data2) := by
  obtain ⟨m1, l1⟩ := c1
  obtain ⟨m2, l2⟩ := c2
  obtain ⟨n1⟩ := d1
  obtain ⟨n2⟩ := d2
  dsimp only at hmaxc hlevel hmaxd
  subst hmaxc
  subst hlevel
  subst hmaxd
  exact ⟨rfl, rfl, rfl, rfl, fun _ h => by rw [h]⟩

/-- C10 (witness): determinism and state preservation at concrete
equal configurations. -/
theorem wrapper_deterministic_witness :
    (Compressor.compressMember ⟨10, 6⟩ storeCodec.deflateRun [] [1]).1
        = (Compressor.compressMember ⟨10, 6⟩ storeCodec.deflateRun [] [1]).1 ∧
    (Compressor.compressMember ⟨10, 6⟩ storeCodec.deflateRun [] [1]).2 = ⟨10, 6⟩ ∧
    (Decompressor.decompressMember ⟨10⟩ ⟨[], none⟩ 0 []).1
        = (Decompressor.decompressMember ⟨10⟩ ⟨[], none⟩ 0 []).1 ∧
    (Decompressor.decompressMember ⟨10⟩ ⟨[], none⟩ 0 []).2 = ⟨10⟩ ∧
    (∀ data2, [1] = data2 → is_compressed [1] = is_compressed data2) :=
  wrapper_deterministic ⟨10, 6⟩ ⟨10, 6⟩ ⟨10⟩ ⟨10⟩ storeCodec.deflateRun
    ⟨[], none⟩ 0 [] [1] rfl rfl rfl

end GzipHpp
